import Mathlib

/-!
# Verification of the sqlj SQL-construction engine

A shallow embedding of the sqlj Go package: the placeholder rewriter
(`replacePlaceholder` / `indexMatches`), the clause tree and its rendering
(`Expr`, `joinWhereClauses`, `buildWhereClause`), the field model
(`Field`, `pluckValues`, `dedupeFields`), the statement builders
(`buildInsertSQL`, `buildUpdateSQL`, `buildSelectQuery`, `buildDeleteSQL`)
and the fluent query type (`QueryDB`).  Go strings are modelled as
`List Char` (all characters the code inspects are ASCII, so Go's byte
indexing and this char indexing agree); Go `any` values are modelled by
the small universe `Val`, whose `Val.nil` plays the role of Go's `nil`.
-/

namespace sqlj

/-- Go `fmt.Sprintf("$%d", n)`: a dollar sign followed by the decimal digits. -/
def dollarNum (n : Nat) : List Char :=
  '$' :: Nat.toDigits 10 n

/-- Go `strings.Join(xs, sep)`. -/
def joinSep (sep : List Char) : List (List Char) → List Char
  | [] => []
  | [x] => x
  | x :: y :: rest => x ++ sep ++ joinSep sep (y :: rest)

/-- Loop body of Go `indexMatches` (builders.go): collect the byte indexes of
every `?` that is not inside a single-quoted literal; a quote character always
toggles the quote state (the `escaping` flag in the source is declared but its
update is commented out, so it is permanently `false` and is omitted here). -/
def indexMatchesAux : List Char → Nat → Bool → List Nat
  | [], _, _ => []
  | c :: rest, i, inQuote =>
    if c = '?' then
      if inQuote then indexMatchesAux rest (i + 1) inQuote
      else i :: indexMatchesAux rest (i + 1) inQuote
    else if c = '\'' then
      indexMatchesAux rest (i + 1) (!inQuote)
    else
      indexMatchesAux rest (i + 1) inQuote

/-- Go `indexMatches(expr)` (builders.go). -/
def indexMatches (expr : List Char) : List Nat :=
  indexMatchesAux expr 0 false

/-- Loop of Go `replacePlaceholder`: the match indexes are visited in reverse
order so that splicing does not invalidate the remaining (smaller) indexes;
the marker visited at loop counter `idx` receives number
`(total - idx) + offset`. -/
def rpLoop (total offset : Nat) : List Char → List Nat → Nat → List Char
  | sql, [], _ => sql
  | sql, m :: rest, idx =>
    rpLoop total offset
      (sql.take m ++ dollarNum (total - idx + offset) ++ sql.drop (m + 1))
      rest (idx + 1)

/-- Go `replacePlaceholder(expr, offset)` (builders.go): rewrite the unquoted
`?` markers into `$N` placeholders and return the rewritten text together with
the number of replacements. -/
def replacePlaceholder (expr : List Char) (offset : Nat) : List Char × Nat :=
  let ms := indexMatches expr
  (rpLoop ms.length offset expr ms.reverse 0, ms.length)

/-- Specification-side rewriter, written exactly as the spec describes the
behaviour: scan left to right; quote state toggles on every quote character;
an unquoted `?` becomes the placeholder `$next` and the counter advances;
everything else is copied unchanged. -/
def rewriteFrom : List Char → Nat → Bool → List Char
  | [], _, _ => []
  | c :: rest, next, inQuote =>
    if c = '?' then
      if inQuote then c :: rewriteFrom rest next inQuote
      else dollarNum next ++ rewriteFrom rest (next + 1) inQuote
    else if c = '\'' then c :: rewriteFrom rest next (!inQuote)
    else c :: rewriteFrom rest next inQuote

/-- Specification-side marker count: the number of `?` characters occurring
outside single-quoted regions. -/
def countMarkers : List Char → Bool → Nat
  | [], _ => 0
  | c :: rest, inQuote =>
    if c = '?' then
      (if inQuote then 0 else 1) + countMarkers rest inQuote
    else if c = '\'' then countMarkers rest (!inQuote)
    else countMarkers rest inQuote

theorem map_add_add (X : List Nat) (a b : Nat) :
    (X.map (· + a)).map (· + b) = X.map (· + (a + b)) := by
  induction X with
  | nil => simp
  | cons x xs ih =>
    simp only [List.map_cons] at *
    rw [ih]
    congr 1
    omega

theorem indexMatchesAux_shift (l : List Char) :
    ∀ (i : Nat) (q : Bool),
      indexMatchesAux l i q = (indexMatchesAux l 0 q).map (· + i) := by
  induction l with
  | nil => intro i q; simp [indexMatchesAux]
  | cons c rest ih =>
    intro i q
    simp only [indexMatchesAux]
    by_cases hc : c = '?'
    · rw [if_pos hc, if_pos hc]
      cases q with
      | true =>
        rw [if_pos rfl, if_pos rfl, ih (i + 1) true, ih 1 true, map_add_add]
        simp [Nat.add_comm 1 i]
      | false =>
        rw [if_neg (by simp), if_neg (by simp), ih (i + 1) false, ih 1 false,
          List.map_cons, map_add_add]
        simp [Nat.add_comm 1 i]
    · rw [if_neg hc, if_neg hc]
      by_cases hc' : c = '\''
      · rw [if_pos hc', if_pos hc', ih (i + 1) (!q), ih 1 (!q), map_add_add]
        simp [Nat.add_comm 1 i]
      · rw [if_neg hc', if_neg hc', ih (i + 1) q, ih 1 q, map_add_add]
        simp [Nat.add_comm 1 i]

theorem indexMatchesAux_length_eq_countMarkers (l : List Char) :
    ∀ q : Bool, (indexMatchesAux l 0 q).length = countMarkers l q := by
  induction l with
  | nil => intro q; simp [indexMatchesAux, countMarkers]
  | cons c rest ih =>
    intro q
    simp only [indexMatchesAux, countMarkers]
    by_cases hc : c = '?'
    · rw [if_pos hc, if_pos hc]
      cases q with
      | true =>
        rw [if_pos rfl, if_pos rfl, indexMatchesAux_shift rest 1 true]
        simp [ih true]
      | false =>
        rw [if_neg (by simp), if_neg (by simp), indexMatchesAux_shift rest 1 false]
        simp [ih false]
        omega
    · rw [if_neg hc, if_neg hc]
      by_cases hc' : c = '\''
      · rw [if_pos hc', if_pos hc', indexMatchesAux_shift rest 1 (!q)]
        simp [ih (!q)]
      · rw [if_neg hc', if_neg hc', indexMatchesAux_shift rest 1 q]
        simp [ih q]

theorem rpLoop_cons_shift (t o : Nat) (c : Char) :
    ∀ (ms : List Nat) (sql : List Char) (idx : Nat),
      rpLoop t o (c :: sql) (ms.map (· + 1)) idx = c :: rpLoop t o sql ms idx := by
  intro ms
  induction ms with
  | nil => intro sql idx; simp [rpLoop]
  | cons m ms ih =>
    intro sql idx
    have h1 : rpLoop t o (c :: sql) ((m :: ms).map (· + 1)) idx
        = rpLoop t o (c :: (sql.take m ++ dollarNum (t - idx + o) ++ sql.drop (m + 1)))
            (ms.map (· + 1)) (idx + 1) := by
      simp only [List.map_cons, rpLoop, List.take_succ_cons, List.drop_succ_cons,
        List.cons_append]
    rw [h1, ih _ (idx + 1)]
    simp only [rpLoop]

theorem rpLoop_cons_zero (t o : Nat) (c : Char) :
    ∀ (ms : List Nat) (sql : List Char) (idx : Nat),
      rpLoop t o (c :: sql) (ms.map (· + 1) ++ [0]) idx =
        dollarNum (t - (idx + ms.length) + o) ++ rpLoop t o sql ms idx := by
  intro ms
  induction ms with
  | nil =>
    intro sql idx
    simp [rpLoop]
  | cons m ms ih =>
    intro sql idx
    have h1 : rpLoop t o (c :: sql) ((m :: ms).map (· + 1) ++ [0]) idx
        = rpLoop t o (c :: (sql.take m ++ dollarNum (t - idx + o) ++ sql.drop (m + 1)))
            (ms.map (· + 1) ++ [0]) (idx + 1) := by
      simp only [List.map_cons, List.cons_append, rpLoop, List.take_succ_cons,
        List.drop_succ_cons, List.append_eq]
    rw [h1, ih _ (idx + 1)]
    have h2 : t - (idx + 1 + ms.length) + o = t - (idx + (m :: ms).length) + o := by
      simp only [List.length_cons]
      omega
    rw [h2]
    simp only [rpLoop]

theorem rpLoop_eq_rewriteFrom (off : Nat) (expr : List Char) :
    ∀ (q : Bool) (idx t : Nat), idx + (indexMatchesAux expr 0 q).length ≤ t →
      rpLoop t off expr ((indexMatchesAux expr 0 q).reverse) idx =
        rewriteFrom expr (t - (idx + (indexMatchesAux expr 0 q).length) + off + 1) q := by
  induction expr with
  | nil => intro q idx t _; simp [indexMatchesAux, rpLoop, rewriteFrom]
  | cons c rest ih =>
    intro q idx t h
    simp only [indexMatchesAux, Nat.zero_add] at h
    simp only [indexMatchesAux, rewriteFrom, Nat.zero_add]
    by_cases hc : c = '?'
    · rw [if_pos hc] at h
      rw [if_pos hc, if_pos hc]
      cases q with
      | true =>
        rw [if_pos rfl] at h
        rw [if_pos rfl, if_pos rfl]
        rw [indexMatchesAux_shift rest 1 true] at h
        rw [indexMatchesAux_shift rest 1 true, ← List.map_reverse, rpLoop_cons_shift]
        rw [List.length_map] at h
        rw [ih true idx t h]
        simp
      | false =>
        rw [if_neg (by simp)] at h
        rw [if_neg (by simp), if_neg (by simp)]
        rw [indexMatchesAux_shift rest 1 false] at h
        rw [indexMatchesAux_shift rest 1 false, List.reverse_cons, ← List.map_reverse,
          rpLoop_cons_zero]
        rw [List.length_cons, List.length_map] at h
        rw [ih false idx t (by omega)]
        rw [List.length_reverse, List.length_cons, List.length_map]
        have e1 : t - (idx + (indexMatchesAux rest 0 false).length) + off
            = t - (idx + ((indexMatchesAux rest 0 false).length + 1)) + off + 1 := by
          omega
        rw [e1]
    · rw [if_neg hc] at h
      rw [if_neg hc, if_neg hc]
      by_cases hc' : c = '\''
      · rw [if_pos hc'] at h
        rw [if_pos hc', if_pos hc']
        rw [indexMatchesAux_shift rest 1 (!q)] at h
        rw [indexMatchesAux_shift rest 1 (!q), ← List.map_reverse, rpLoop_cons_shift]
        rw [List.length_map] at h
        rw [ih (!q) idx t h]
        simp
      · rw [if_neg hc'] at h
        rw [if_neg hc', if_neg hc']
        rw [indexMatchesAux_shift rest 1 q] at h
        rw [indexMatchesAux_shift rest 1 q, ← List.map_reverse, rpLoop_cons_shift]
        rw [List.length_map] at h
        rw [ih q idx t h]
        simp

theorem replacePlaceholder_eq_rewrite (expr : List Char) (off : Nat) :
    replacePlaceholder expr off = (rewriteFrom expr (off + 1) false, countMarkers expr false) := by
  have hlen := indexMatchesAux_length_eq_countMarkers expr false
  have h := rpLoop_eq_rewriteFrom off expr false 0
      (indexMatchesAux expr 0 false).length (by omega)
  have hb : (indexMatchesAux expr 0 false).length
      - (0 + (indexMatchesAux expr 0 false).length) + off + 1 = off + 1 := by omega
  rw [hb] at h
  simp only [replacePlaceholder, indexMatches]
  rw [h, hlen]

theorem rewriteFrom_no_markers (l : List Char) :
    ∀ (q : Bool) (n : Nat), countMarkers l q = 0 → rewriteFrom l n q = l := by
  induction l with
  | nil => intro q n _; simp [rewriteFrom]
  | cons c rest ih =>
    intro q n h
    simp only [countMarkers] at h
    simp only [rewriteFrom]
    by_cases hc : c = '?'
    · rw [if_pos hc] at h
      rw [if_pos hc]
      cases q with
      | true =>
        rw [if_pos rfl] at h
        rw [if_pos rfl, ih true n (by omega)]
      | false =>
        rw [if_neg (by simp)] at h
        exact absurd h (by omega)
    · rw [if_neg hc] at h
      rw [if_neg hc]
      by_cases hc' : c = '\''
      · rw [if_pos hc'] at h
        rw [if_pos hc', ih (!q) n h]
      · rw [if_neg hc'] at h
        rw [if_neg hc', ih q n h]

/-- **C2**: for every expression string `s` and offset `n`, `replacePlaceholder s n`
replaces exactly the `?` characters occurring outside single-quoted regions (quote
state toggling on every quote character), assigning them, in left-to-right order,
the placeholders `$(n+1), $(n+2), …` — this is precisely what the left-to-right
scanner `rewriteFrom s (n+1) false` produces — and returns as count the number of
unquoted markers (`countMarkers s false`); quoted markers are never counted or
replaced, and a string with no unquoted markers comes back unchanged with count 0. -/
theorem replacePlaceholder_correct (s : List Char) (n : Nat) :
    replacePlaceholder s n = (rewriteFrom s (n + 1) false, countMarkers s false) ∧
    (countMarkers s false = 0 →
      (replacePlaceholder s n).1 = s ∧ (replacePlaceholder s n).2 = 0) := by
  refine ⟨replacePlaceholder_eq_rewrite s n, fun h => ?_⟩
  rw [replacePlaceholder_eq_rewrite s n]
  exact ⟨rewriteFrom_no_markers s false (n + 1) h, h⟩

/-- Witness for C2: a concrete mixed string (two unquoted markers, one quoted) at
offset 3, and a marker-free string returned unchanged. -/
theorem replacePlaceholder_correct_witness :
    replacePlaceholder ("a = ? AND b = '?' OR c = ?".data) 3 =
      ("a = $4 AND b = '?' OR c = $5".data, 2) ∧
    (replacePlaceholder ("name = '?'".data) 0).1 = "name = '?'".data := by
  constructor
  · exact (replacePlaceholder_correct ("a = ? AND b = '?' OR c = ?".data) 3).1.trans (by decide)
  · exact ((replacePlaceholder_correct ("name = '?'".data) 0).2 (by decide)).1

/-- Go `parens(expr)` (builders.go): wrap in parentheses. -/
def parens (expr : List Char) : List Char :=
  '(' :: expr ++ [')']

/-- The clause expression interface (expr.go): `SimpleExpr` holds raw text,
`NestedExpr` holds an inner clause list.  A `WhereClause` is a connector
keyword (`Type`, "AND" or "OR") paired with an expression, modelled below as
`List Char × Expr`. -/
inductive Expr where
  | simple (s : List Char)
  | nested (cs : List (List Char × Expr))

mutual

/-- Go `SimpleExpr.String` / `NestedExpr.String` (expr.go): a simple expression
is its stored text; a nested expression is its inner clause list rendered and
parenthesised. -/
def exprString : Expr → List Char
  | .simple s => s
  | .nested cs => parens (joinSep [' '] ((clauseSlots cs 0).drop 1))

/-- The loop of Go `joinWhereClauses` (builders.go): slot `2*idx` holds the
empty string for the first clause and the connector keyword otherwise, slot
`2*idx+1` holds the rendered expression. -/
def clauseSlots : List (List Char × Expr) → Nat → List (List Char)
  | [], _ => []
  | c :: rest, idx =>
    (if idx = 0 then [] else c.1) :: exprString c.2 :: clauseSlots rest (idx + 1)

end

/-- Go `joinWhereClauses(clauses)` (builders.go): build the slot array and join
all slots but the first with single spaces. -/
def joinWhereClauses (clauses : List (List Char × Expr)) : List Char :=
  joinSep [' '] ((clauseSlots clauses 0).drop 1)

/-- Go `buildWhereClause(clauses)` (builders.go): empty list gives `("", 0)`,
otherwise the joined clause text with its markers rewritten at offset 0. -/
def buildWhereClause (clauses : List (List Char × Expr)) : List Char × Nat :=
  if clauses.length = 0 then ([], 0)
  else replacePlaceholder (joinWhereClauses clauses) 0

/-- Specification-side rendering, following the spec's words: the first clause
contributes only its expression text, every later clause contributes its
connector keyword and its expression text, all pieces joined by single
spaces; the empty list renders to the empty string. -/
def renderSpec : List (List Char × Expr) → List Char
  | [] => []
  | c :: rest =>
    joinSep [' ']
      (exprString c.2 :: (rest.map (fun d => [d.1, exprString d.2])).flatten)

theorem clauseSlots_pos (rest : List (List Char × Expr)) :
    ∀ idx : Nat, idx ≠ 0 →
      clauseSlots rest idx = (rest.map (fun d => [d.1, exprString d.2])).flatten := by
  induction rest with
  | nil => intro idx _; simp [clauseSlots]
  | cons d rest ih =>
    intro idx hidx
    simp only [clauseSlots, List.map_cons, List.flatten, if_neg hidx]
    rw [ih (idx + 1) (by omega)]
    simp

theorem joinWhereClauses_eq_renderSpec (cs : List (List Char × Expr)) :
    joinWhereClauses cs = renderSpec cs := by
  cases cs with
  | nil => simp [joinWhereClauses, clauseSlots, renderSpec, joinSep]
  | cons c rest =>
    simp only [joinWhereClauses, clauseSlots, if_pos rfl, List.drop_succ_cons,
      List.drop_zero, renderSpec]
    rw [clauseSlots_pos rest 1 (by omega)]

/-- **C3**: rendering a clause list emits, space-separated, nothing for the
clause at position 0 and the connector keyword for every later clause, each
followed by the expression's rendered text; a `simple` expression renders as
its stored text, a `nested` one as its recursively rendered inner list in
parentheses; the empty list renders to the empty string; and
`buildWhereClause` returns this rendering rewritten at offset 0 together with
the total replacement count. -/
theorem whereClause_rendering (cs : List (List Char × Expr)) (s : List Char) :
    joinWhereClauses cs = renderSpec cs ∧
    exprString (Expr.simple s) = s ∧
    exprString (Expr.nested cs) = parens (renderSpec cs) ∧
    renderSpec [] = ([] : List Char) ∧
    buildWhereClause cs = replacePlaceholder (renderSpec cs) 0 := by
  refine ⟨joinWhereClauses_eq_renderSpec cs, rfl, ?_, rfl, ?_⟩
  · rw [← joinWhereClauses_eq_renderSpec]
    rfl
  · by_cases hcs : cs.length = 0
    · have hnil : cs = [] := List.length_eq_zero.mp hcs
      subst hnil
      rfl
    · simp only [buildWhereClause, if_neg hcs]
      rw [joinWhereClauses_eq_renderSpec]

/-- The universe of Go `any` values the package stores as bound values;
`Val.nil` is Go's `nil`. -/
inductive Val where
  | nil
  | int (n : Int)
  | str (s : List Char)
deriving DecidableEq

/-- The Go `Field` interface (fields.go) with its two implementations:
`BasicField` (a bound name/value pair) and `LiteralField` (a name plus raw SQL
text inserted verbatim). -/
inductive Field where
  | basic (name : List Char) (value : Val)
  | literal (name : List Char) (value : List Char)
deriving DecidableEq

def Field.GetName : Field → List Char
  | .basic n _ => n
  | .literal n _ => n

/-- `BasicField.GetValue` returns the stored value; `LiteralField.GetValue`
returns Go `nil` (fields.go). -/
def Field.GetValue : Field → Val
  | .basic _ v => v
  | .literal _ _ => Val.nil

/-- `BasicField.GetPlaceholder idx` is `$idx`; `LiteralField.GetPlaceholder`
ignores the index and returns the literal's raw SQL text (fields.go). -/
def Field.GetPlaceholder : Field → Nat → List Char
  | .basic _ _, idx => dollarNum idx
  | .literal _ v, _ => v

def Field.IsLiteral : Field → Bool
  | .basic _ _ => false
  | .literal _ _ => true

def Val.isNil : Val → Bool
  | .nil => true
  | _ => false

/-- Go `pluckNames(fields)` (fields.go). -/
def pluckNames (fields : List Field) : List (List Char) :=
  fields.map Field.GetName

/-- Go `pluckValues(fields)` (fields.go, the revision that compacts): keep, in
order, exactly the values for which `GetValue()` is not `nil`. -/
def pluckValues : List Field → List Val
  | [] => []
  | f :: rest =>
    if f.GetValue.isNil then pluckValues rest else f.GetValue :: pluckValues rest

/-- Go `insertParams` (builders.go). -/
structure insertParams where
  From : List Char
  Fields : List Field
  Returning : List (List Char)

/-- The loop of Go `buildInsertSQL` (builders.go): names and placeholders are
built in one pass with a bound counter `n` starting at 0; each field receives
`GetPlaceholder (n+1)` and only non-literal fields advance `n`. -/
def insertLists : List Field → Nat → List (List Char) × List (List Char)
  | [], _ => ([], [])
  | f :: rest, n =>
    let tail := insertLists rest (if f.IsLiteral then n else n + 1)
    (f.GetName :: tail.1, f.GetPlaceholder (n + 1) :: tail.2)

/-- Go `buildInsertSQL(options)` (builders.go). -/
def buildInsertSQL (options : insertParams) : List Char :=
  "INSERT INTO ".data ++ options.From
    ++ " (".data ++ joinSep (", ".data) (insertLists options.Fields 0).1
    ++ ") VALUES (".data ++ joinSep (", ".data) (insertLists options.Fields 0).2
    ++ ") RETURNING ".data ++ joinSep (", ".data) options.Returning

/-- Specification-side placeholder assignment for INSERT, following the spec's
words: iterate the fields with a bound counter starting at 1; a bound field
emits `$counter` and increments it; a literal field emits its raw SQL text
verbatim and does not increment it. -/
def phList : List Field → Nat → List (List Char)
  | [], _ => []
  | .basic _ _ :: rest, counter => dollarNum counter :: phList rest (counter + 1)
  | .literal _ v :: rest, counter => v :: phList rest counter

theorem insertLists_eq (fs : List Field) :
    ∀ n : Nat, insertLists fs n = (fs.map Field.GetName, phList fs (n + 1)) := by
  induction fs with
  | nil => intro n; simp [insertLists, phList]
  | cons f rest ih =>
    intro n
    cases f with
    | basic name v =>
      simp [insertLists, phList, Field.IsLiteral, Field.GetName,
        Field.GetPlaceholder, ih (n + 1)]
    | literal name v =>
      simp [insertLists, phList, Field.IsLiteral, Field.GetName,
        Field.GetPlaceholder, ih n]

/-- **C4**: `buildInsertSQL` emits
`INSERT INTO <table> (<names>) VALUES (<placeholders>) RETURNING <returning>`
where the placeholders are assigned by a bound counter starting at 1: a bound
field emits `$counter` and increments it, a literal field emits its raw SQL
text verbatim and does not (`phList`). -/
theorem buildInsertSQL_spec (table : List Char) (fields : List Field)
    (ret : List (List Char)) :
    buildInsertSQL ⟨table, fields, ret⟩ =
      "INSERT INTO ".data ++ table
        ++ " (".data ++ joinSep (", ".data) (fields.map Field.GetName)
        ++ ") VALUES (".data ++ joinSep (", ".data) (phList fields 1)
        ++ ") RETURNING ".data ++ joinSep (", ".data) ret := by
  simp [buildInsertSQL, insertLists_eq fields 0]

/-- Go `updateParams` (builders.go). -/
structure updateParams where
  From : List Char
  Fields : List Field
  Returning : List (List Char)

/-- The loop of Go `buildUpdateSQL` (builders.go): the SET entry for the field
at position `idx` is `name = GetPlaceholder(idx+1)` — numbering is purely
positional, literal fields included. -/
def setExprList : List Field → Nat → List (List Char)
  | [], _ => []
  | f :: rest, idx =>
    (f.GetName ++ " = ".data ++ f.GetPlaceholder (idx + 1)) :: setExprList rest (idx + 1)

/-- Go `buildUpdateSQL(options)` (builders.go): the trailing identifier
placeholder is numbered `len(Fields) + 1`. -/
def buildUpdateSQL (options : updateParams) : List Char :=
  "UPDATE ".data ++ options.From
    ++ " SET ".data ++ joinSep (", ".data) (setExprList options.Fields 0)
    ++ " WHERE id = $".data ++ Nat.toDigits 10 (options.Fields.length + 1)
    ++ " RETURNING ".data ++ joinSep (", ".data) options.Returning

/-- Counterexample to **C5**: with a literal field before a bound one the SET
numbering is positional, so the bound field receives `$2`, while the
Insert-style bound-counter rule (`phList`) would give it `$1`. -/
theorem buildUpdateSQL_not_insert_numbering :
    buildUpdateSQL ⟨"t".data,
        [Field.literal ("a".data) ("now()".data), Field.basic ("b".data) (Val.int 1)],
        ["a".data, "b".data]⟩ =
      "UPDATE t SET a = now(), b = $2 WHERE id = $3 RETURNING a, b".data ∧
    phList [Field.literal ("a".data) ("now()".data), Field.basic ("b".data) (Val.int 1)] 1 =
      ["now()".data, "$1".data] ∧
    ("b = $2".data : List Char) ≠ "b = $1".data := by
  exact ⟨by decide, by decide, by decide⟩

theorem setExprList_eq_zipWith (fs : List Field) :
    ∀ i : Nat, setExprList fs i =
      List.zipWith (fun k f => f.GetName ++ " = ".data ++ f.GetPlaceholder k)
        (List.range' (i + 1) fs.length) fs := by
  induction fs with
  | nil => intro i; simp [setExprList]
  | cons f rest ih =>
    intro i
    simp only [setExprList, List.length_cons, List.range'_succ,
      List.zipWith_cons_cons, ih (i + 1)]

/-- **C5** (amended): `buildUpdateSQL` emits
`UPDATE <table> SET <entries> WHERE id = $(N+1) RETURNING <returning>` where
`N = len(fields)` and the SET entry for the field at (0-based) position `idx`
is `name = GetPlaceholder(idx+1)` — so literal fields also occupy a numbering
slot, unlike Insert — and the identifier placeholder number `N+1` is greater
than every positional slot number `1..N` used by the fields. -/
theorem buildUpdateSQL_positional_spec (table : List Char) (fields : List Field)
    (ret : List (List Char)) :
    buildUpdateSQL ⟨table, fields, ret⟩ =
      "UPDATE ".data ++ table ++ " SET ".data
        ++ joinSep (", ".data)
          (List.zipWith (fun k f => f.GetName ++ " = ".data ++ f.GetPlaceholder k)
            (List.range' 1 fields.length) fields)
        ++ " WHERE id = $".data ++ Nat.toDigits 10 (fields.length + 1)
        ++ " RETURNING ".data ++ joinSep (", ".data) ret ∧
    ∀ k ∈ List.range' 1 fields.length, k < fields.length + 1 := by
  constructor
  · simp [buildUpdateSQL, setExprList_eq_zipWith fields 0]
  · intro k hk
    obtain ⟨i, hi, rfl⟩ := List.mem_range'.mp hk
    omega

/-- Witness for the amended C5 theorem at a concrete literal-then-bound field
list. -/
theorem buildUpdateSQL_positional_spec_witness :
    buildUpdateSQL ⟨"u".data,
        [Field.literal ("a".data) ("now()".data), Field.basic ("b".data) (Val.int 1)],
        ["a".data]⟩ =
      "UPDATE u SET a = now(), b = $2 WHERE id = $3 RETURNING a".data ∧
    (2 : Nat) < 2 + 1 := by
  have h := buildUpdateSQL_positional_spec ("u".data)
      [Field.literal ("a".data) ("now()".data), Field.basic ("b".data) (Val.int 1)]
      ["a".data]
  exact ⟨h.1.trans (by decide), h.2 2 (by decide)⟩

theorem pluckValues_eq_filter (fields : List Field) :
    pluckValues fields = (fields.map Field.GetValue).filter (fun v => !v.isNil) := by
  induction fields with
  | nil => simp [pluckValues]
  | cons f rest ih =>
    simp only [pluckValues, List.map_cons, List.filter_cons]
    cases hv : f.GetValue.isNil <;> simp [hv, ih]

theorem pluckValues_all_nonnil (fields : List Field) :
    (∀ f ∈ fields, f.IsLiteral = false → f.GetValue.isNil = false) →
      pluckValues fields = (fields.filter (fun f => !f.IsLiteral)).map Field.GetValue := by
  induction fields with
  | nil => intro _; simp [pluckValues]
  | cons f rest ih =>
    intro h
    have hrest := ih fun g hg hl => h g (List.mem_cons_of_mem _ hg) hl
    cases f with
    | basic name v =>
      have hv : (Field.basic name v).GetValue.isNil = false :=
        h _ (List.mem_cons_self _ _) rfl
      simp only [pluckValues, List.filter_cons, Field.IsLiteral, hv, Bool.not_false,
        if_true, if_false, List.map_cons, hrest]
      simp
    | literal name v =>
      simp only [pluckValues, List.filter_cons, Field.IsLiteral, Field.GetValue,
        Val.isNil, Bool.not_true, hrest]
      simp

/-- Counterexample to **C9**: a bound (Basic) field whose runtime value is Go
`nil` contributes no entry, although the claim says every Bound field's value
appears in the output. -/
theorem pluckValues_skips_nil_basic :
    pluckValues [Field.basic ("a".data) Val.nil] = [] ∧
    ([] : List Val) ≠ [Val.nil] := ⟨rfl, by decide⟩

/-- **C9** (amended): `pluckValues` returns exactly the non-nil values of the
fields, in input order and with no gaps; literal fields report `nil` so they
never contribute, and a bound field contributes exactly when its value is
non-nil.  In particular, when every bound field holds a non-nil value the
result is exactly the bound fields' values in input order. -/
theorem pluckValues_nonnil_spec (fields : List Field) :
    pluckValues fields = (fields.map Field.GetValue).filter (fun v => !v.isNil) ∧
    ((∀ f ∈ fields, f.IsLiteral = false → f.GetValue.isNil = false) →
      pluckValues fields = (fields.filter (fun f => !f.IsLiteral)).map Field.GetValue) :=
  ⟨pluckValues_eq_filter fields, pluckValues_all_nonnil fields⟩

/-- Witness for the amended C9 theorem: two non-nil bound fields around a
literal field yield exactly the two bound values, in order. -/
theorem pluckValues_nonnil_spec_witness :
    pluckValues [Field.basic ("a".data) (Val.int 1),
        Field.literal ("c".data) ("now()".data),
        Field.basic ("b".data) (Val.str ("x".data))] =
      [Val.int 1, Val.str ("x".data)] := by
  have h := (pluckValues_nonnil_spec [Field.basic ("a".data) (Val.int 1),
      Field.literal ("c".data) ("now()".data),
      Field.basic ("b".data) (Val.str ("x".data))]).2 (by decide)
  exact h.trans (by decide)

/-- Go `orderBy` (builders.go). -/
structure orderBy where
  Expression : List Char
  Direction : List Char
deriving DecidableEq

/-- Go `selectParams` (builders.go). -/
structure selectParams where
  From : List Char
  Where : List (List Char × Expr)
  OrderBy : List orderBy
  Offset : Bool
  Limit : Bool
  Columns : List (List Char)

/-- Go `buildSelectQuery(options)` (builders.go).  The Go function accumulates
into `sql` and `placeholderOffset` by successive assignments; here each
assignment is a `let` binding. -/
def buildSelectQuery (options : selectParams) : List Char :=
  let base := "SELECT ".data ++ joinSep (", ".data) options.Columns
      ++ " FROM ".data ++ options.From
  let afterWhere :=
    if options.Where.length > 0 then
      base ++ " WHERE ".data ++ (buildWhereClause options.Where).1
    else base
  let placeholderOffset :=
    if options.Where.length > 0 then (buildWhereClause options.Where).2 else 0
  let afterOrder :=
    if options.OrderBy.length > 0 then
      afterWhere ++ " ORDER BY ".data
        ++ joinSep (", ".data)
          (options.OrderBy.map (fun o => joinSep [' '] [o.Expression, o.Direction]))
    else afterWhere
  let afterLimit :=
    if options.Limit then
      afterOrder ++ " LIMIT $".data ++ Nat.toDigits 10 (placeholderOffset + 1)
    else afterOrder
  let offsetNumber :=
    if options.Limit then placeholderOffset + 2 else placeholderOffset + 1
  if options.Offset then
    afterLimit ++ " OFFSET $".data ++ Nat.toDigits 10 offsetNumber
  else afterLimit

def AND_TYPE : List Char := "AND".data

def OR_TYPE : List Char := "OR".data

/-- Go `QueryDB` (fields.go): the fluent query state. -/
structure QueryDB where
  From : List Char
  OrderClauses : List orderBy
  WhereClauses : List (List Char × Expr)
  WhereValues : List Val

def QueryDB.WhereExpr (q : QueryDB) (expr : Expr) (values : List Val) : QueryDB :=
  { q with
    WhereClauses := q.WhereClauses ++ [(AND_TYPE, expr)]
    WhereValues := q.WhereValues ++ values }

def QueryDB.Where (q : QueryDB) (expr : List Char) (values : List Val) : QueryDB :=
  q.WhereExpr (Expr.simple expr) values

def QueryDB.OrWhereExpr (q : QueryDB) (expr : Expr) (values : List Val) : QueryDB :=
  { q with
    WhereClauses := q.WhereClauses ++ [(OR_TYPE, expr)]
    WhereValues := q.WhereValues ++ values }

/-- Go `OrWhere` (fields.go): `return q.OrWhereExpr(SimpleExpr{expr})` — the
variadic `values` parameter is accepted but not forwarded, so `OrWhereExpr`
receives an empty value list. -/
def QueryDB.OrWhere (q : QueryDB) (expr : List Char) (values : List Val) : QueryDB :=
  q.OrWhereExpr (Expr.simple expr) []

/-- Go `PageOptions` (the revision with exported fields, used by
fluent_test.go); `uint` page numbers become `Nat`. -/
structure PageOptions where
  PageNumber : Nat
  PageSize : Nat
  Order : List orderBy

/-- Go `QueryDB.Page(options, v)` (the newest fluent revision): validate the
request, compute `offset = (PageNumber-1)*PageSize` and `limit = PageSize`,
build the SELECT with both LIMIT and OFFSET requested, and pass
`append(q.WhereValues, limit, offset)` to the executor.  The reflection step
`getSliceStructInstance`/`extractFields` (the external record adapter) is
abstracted as `destColumns`: `none` models an invalid destination, `some cols`
a valid destination whose extracted column names are `cols`.  The executor
call `SelectAll(sql, v, values...)` is modelled by returning the
`(sql, values)` request it would receive; an `error` result means the executor
is never invoked. -/
def QueryDB.Page (q : QueryDB) (options : PageOptions)
    (destColumns : Option (List (List Char))) :
    Except (List Char) (List Char × List Val) :=
  if options.PageNumber < 1 then
    .error ("Page number must be greater than 0".data)
  else if options.PageSize < 1 then
    .error ("Page size must be greater than 0".data)
  else if options.Order.length = 0 then
    .error ("Must include atleast one order by".data)
  else
    match destColumns with
    | none => .error ("v must be a pointer to a slice of structs".data)
    | some columns =>
      let offset := (options.PageNumber - 1) * options.PageSize
      let limit := options.PageSize
      let sql := buildSelectQuery
        { From := q.From, Where := q.WhereClauses, OrderBy := options.Order,
          Offset := true, Limit := true, Columns := columns }
      .ok (sql, q.WhereValues ++ [Val.int limit, Val.int offset])

/-- **C7** (evaluating the code at the failing input): `Where` appends both
the clause and its values, but `OrWhere` appends the OR clause and silently
drops the supplied values — `OrWhere` forwards only the expression to
`OrWhereExpr` — so the builder's clause/value pairing invariant breaks. -/
theorem orWhere_drops_values :
    ((QueryDB.mk ("user".data) [] [] []).Where ("name = ?".data)
        [Val.str ("Joe".data)]).WhereValues = [Val.str ("Joe".data)] ∧
    ((QueryDB.mk ("user".data) [] [] []).OrWhere ("title = ?".data)
        [Val.str ("x".data)]).WhereClauses =
      [(OR_TYPE, Expr.simple ("title = ?".data))] ∧
    ((QueryDB.mk ("user".data) [] [] []).OrWhere ("title = ?".data)
        [Val.str ("x".data)]).WhereValues = [] ∧
    ([] : List Val) ≠ [Val.str ("x".data)] := by
  exact ⟨rfl, rfl, rfl, by decide⟩

/-- **C6**: a page request with `PageNumber < 1`, `PageSize < 1` or an empty
`Order` list makes `Page` return the corresponding invalid-argument error —
structurally before any SQL is built and without invoking the executor (an
`error` result carries no request, and `Page` is a pure function of a builder
value, so no state changes) — while a request satisfying all three invariants
together with a valid destination produces no validation error. -/
theorem page_validates_request (q : QueryDB) (options : PageOptions)
    (dest : Option (List (List Char))) :
    ((options.PageNumber < 1 ∨ options.PageSize < 1 ∨ options.Order = []) →
      (q.Page options dest = .error ("Page number must be greater than 0".data) ∨
       q.Page options dest = .error ("Page size must be greater than 0".data) ∨
       q.Page options dest = .error ("Must include atleast one order by".data))) ∧
    (1 ≤ options.PageNumber → 1 ≤ options.PageSize → options.Order ≠ [] →
      ∀ cols, dest = some cols → ∃ r, q.Page options dest = .ok r) := by
  constructor
  · intro h
    by_cases h1 : options.PageNumber < 1
    · left
      simp [QueryDB.Page, h1]
    · by_cases h2 : options.PageSize < 1
      · right; left
        simp [QueryDB.Page, h1, h2]
      · right; right
        have h3 : options.Order = [] := by
          rcases h with h | h | h
          · exact absurd h h1
          · exact absurd h h2
          · exact h
        simp [QueryDB.Page, h1, h2, h3]
  · intro h1 h2 h3 cols hdest
    subst hdest
    have e1 : ¬ options.PageNumber < 1 := by omega
    have e2 : ¬ options.PageSize < 1 := by omega
    have e3 : ¬ options.Order.length = 0 := by
      simpa [List.length_eq_zero] using h3
    refine ⟨(buildSelectQuery
        { From := q.From, Where := q.WhereClauses, OrderBy := options.Order,
          Offset := true, Limit := true, Columns := cols },
      q.WhereValues ++ [Val.int options.PageSize,
        Val.int ((options.PageNumber - 1) * options.PageSize)]), ?_⟩
    simp [QueryDB.Page, e1, e2, e3, Nat.cast_sub h1]

/-- Witness for C6: page number 0 is rejected; a valid request with a valid
destination is accepted. -/
theorem page_validates_request_witness :
    ((QueryDB.mk ("user".data) [] [] []).Page ⟨0, 5, []⟩ none =
        .error ("Page number must be greater than 0".data) ∨
     (QueryDB.mk ("user".data) [] [] []).Page ⟨0, 5, []⟩ none =
        .error ("Page size must be greater than 0".data) ∨
     (QueryDB.mk ("user".data) [] [] []).Page ⟨0, 5, []⟩ none =
        .error ("Must include atleast one order by".data)) ∧
    (∃ r, (QueryDB.mk ("user".data) [] [] []).Page
        ⟨1, 10, [⟨"name".data, "ASC".data⟩]⟩ (some [("id".data)]) = .ok r) := by
  constructor
  · exact (page_validates_request _ _ _).1 (Or.inl (by decide))
  · exact (page_validates_request _ _ _).2 (by decide) (by decide) (by decide) _ rfl

theorem buildWhereClause_eq (cs : List (List Char × Expr)) :
    buildWhereClause cs =
      (rewriteFrom (joinWhereClauses cs) 1 false,
        countMarkers (joinWhereClauses cs) false) := by
  by_cases h : cs.length = 0
  · have hnil : cs = [] := List.length_eq_zero.mp h
    subst hnil
    decide
  · simp only [buildWhereClause, if_neg h]
    exact replacePlaceholder_eq_rewrite _ 0

/-- **C1**: when a SELECT requests both a limit and an offset, the emitted SQL
is the paging-free SELECT text — whose WHERE part is the clause rendering with
markers rewritten starting from `$1`, so the `m` unquoted markers are numbered
`$1..$m` — followed by ` LIMIT $(m+1)` and then ` OFFSET $(m+2)`, in that
textual order, with `m` the WHERE clause's replacement count.  `Page` appends
the limit value and then the offset value after the accumulated where-values,
so when the caller supplied exactly `m` where-values the executed value list
holds the limit value at 0-based index `m` (pairing with placeholder `m+1`,
the LIMIT) and the offset value at index `m+1` (pairing with placeholder
`m+2`, the OFFSET): the i-th value corresponds to placeholder `$i`. -/
theorem selectQuery_page_limit_offset_pairing (opts : selectParams)
    (hl : opts.Limit = true) (ho : opts.Offset = true)
    (q : QueryDB) (popts : PageOptions) (cols : List (List Char))
    (hpn : 1 ≤ popts.PageNumber) (hps : 1 ≤ popts.PageSize)
    (hord : popts.Order ≠ [])
    (hm : q.WhereValues.length = (buildWhereClause q.WhereClauses).2) :
    buildSelectQuery opts =
      buildSelectQuery { opts with Limit := false, Offset := false }
        ++ " LIMIT $".data ++ Nat.toDigits 10 ((buildWhereClause opts.Where).2 + 1)
        ++ " OFFSET $".data ++ Nat.toDigits 10 ((buildWhereClause opts.Where).2 + 2) ∧
    buildWhereClause opts.Where =
      (rewriteFrom (joinWhereClauses opts.Where) 1 false,
        countMarkers (joinWhereClauses opts.Where) false) ∧
    q.Page popts (some cols) =
      .ok (buildSelectQuery
          { From := q.From, Where := q.WhereClauses, OrderBy := popts.Order,
            Offset := true, Limit := true, Columns := cols },
        q.WhereValues ++ [Val.int popts.PageSize,
          Val.int ((popts.PageNumber - 1) * popts.PageSize)]) ∧
    (q.WhereValues ++ [Val.int popts.PageSize,
        Val.int ((popts.PageNumber - 1) * popts.PageSize)])[
      (buildWhereClause q.WhereClauses).2]? = some (Val.int popts.PageSize) ∧
    (q.WhereValues ++ [Val.int popts.PageSize,
        Val.int ((popts.PageNumber - 1) * popts.PageSize)])[
      (buildWhereClause q.WhereClauses).2 + 1]? =
        some (Val.int ((popts.PageNumber - 1) * popts.PageSize)) := by
  refine ⟨?_, buildWhereClause_eq opts.Where, ?_, ?_, ?_⟩
  · by_cases hw : opts.Where.length > 0
    · simp [buildSelectQuery, hl, ho, hw]
    · have hnil : opts.Where = [] := List.length_eq_zero.mp (by omega)
      simp [buildSelectQuery, hl, ho, hnil, buildWhereClause]
  · have e1 : ¬ popts.PageNumber < 1 := by omega
    have e2 : ¬ popts.PageSize < 1 := by omega
    have e3 : ¬ popts.Order.length = 0 := by
      simpa [List.length_eq_zero] using hord
    simp [QueryDB.Page, e1, e2, e3, Nat.cast_sub hpn]
  · rw [← hm, List.getElem?_append_right (le_refl _)]
    simp
  · rw [← hm, List.getElem?_append_right (by omega)]
    simp

/-- Witness for C1: one where-clause with one marker (`m = 1`), page 2 of
size 10: LIMIT is `$2`, OFFSET is `$3`, and the executed values are the
where-value, then limit 10, then offset 10. -/
theorem selectQuery_page_limit_offset_pairing_witness :
    buildSelectQuery ⟨"posts".data, [(AND_TYPE, Expr.simple ("id = ?".data))],
        [], true, true, ["id".data]⟩ =
      "SELECT id FROM posts WHERE id = $1 LIMIT $2 OFFSET $3".data ∧
    (QueryDB.mk ("posts".data) [] [(AND_TYPE, Expr.simple ("id = ?".data))]
        [Val.int 7]).Page ⟨2, 10, [⟨"name".data, "ASC".data⟩]⟩
        (some [("id".data)]) =
      .ok ("SELECT id FROM posts WHERE id = $1 ORDER BY name ASC LIMIT $2 OFFSET $3".data,
        [Val.int 7, Val.int 10, Val.int 10]) := by
  have h := selectQuery_page_limit_offset_pairing
      ⟨"posts".data, [(AND_TYPE, Expr.simple ("id = ?".data))], [], true, true, ["id".data]⟩
      rfl rfl
      (QueryDB.mk ("posts".data) [] [(AND_TYPE, Expr.simple ("id = ?".data))] [Val.int 7])
      ⟨2, 10, [⟨"name".data, "ASC".data⟩]⟩ [("id".data)]
      (by decide) (by decide) (by decide) (by decide)
  refine ⟨h.1.trans (by decide), h.2.2.1.trans ?_⟩
  simp only [Except.ok.injEq, Prod.mk.injEq]
  exact ⟨by decide, by decide⟩

/-- The last field in `fields` carrying `name`: the content of the Go map
`indexedFields` at key `name` after the insertion loop of `dedupeFields`
(sqlj.go), since a later map write to the same key overwrites the earlier
one. -/
def lastFieldNamed (fields : List Field) (name : List Char) : Option Field :=
  fields.reverse.find? (fun f => f.GetName == name)

/-- Go `dedupeFields(fields)` (sqlj.go) copies the map out by ranging over it;
Go map range order is unspecified (the code's own TODO records that the field
order changes between calls).  The range order is therefore an explicit
parameter `order`. -/
def dedupeFields (fields : List Field) (order : List (List Char)) : List Field :=
  order.filterMap (lastFieldNamed fields)

/-- `order` enumerates exactly the map's keys (the names occurring in
`fields`), each exactly once — everything Go guarantees about a map range. -/
def validIterationOrder (fields : List Field) (order : List (List Char)) : Prop :=
  order.Nodup ∧ (∀ f ∈ fields, f.GetName ∈ order) ∧
    (∀ n ∈ order, n ∈ fields.map Field.GetName)

/-- **C8** (evaluating the code at the failing input): for two distinct field
names, both `["a","b"]` and `["b","a"]` are admissible Go map range orders,
and they produce different outputs — in particular the second one is not the
first-occurrence order — so the output order is neither deterministic nor
first-occurrence-ordered.  Last-write-wins itself does hold: the spec's own
example, a Bound then a Literal field sharing one name, evaluates to the
later Literal field. -/
theorem dedupeFields_nondeterministic_order :
    validIterationOrder
      [Field.basic ("a".data) (Val.int 1), Field.basic ("b".data) (Val.int 2)]
      ["a".data, "b".data] ∧
    validIterationOrder
      [Field.basic ("a".data) (Val.int 1), Field.basic ("b".data) (Val.int 2)]
      ["b".data, "a".data] ∧
    dedupeFields [Field.basic ("a".data) (Val.int 1), Field.basic ("b".data) (Val.int 2)]
      ["b".data, "a".data] ≠
      [Field.basic ("a".data) (Val.int 1), Field.basic ("b".data) (Val.int 2)] ∧
    dedupeFields [Field.basic ("a".data) (Val.int 1), Field.basic ("b".data) (Val.int 2)]
      ["a".data, "b".data] ≠
      dedupeFields [Field.basic ("a".data) (Val.int 1), Field.basic ("b".data) (Val.int 2)]
        ["b".data, "a".data] ∧
    dedupeFields [Field.basic ("name".data) (Val.str ("A".data)),
        Field.literal ("name".data) ("B".data)] ["name".data] =
      [Field.literal ("name".data) ("B".data)] := by
  refine ⟨⟨by decide, by decide, by decide⟩, ⟨by decide, by decide, by decide⟩,
    by decide, by decide, by decide⟩

/-- Go `DB` (the `IDColumn` revision, unnamed part_008).  The connection
handle is an external collaborator and does not influence the SQL text. -/
structure DB where
  IDColumn : List Char
  SkipOnInsert : List (List Char)

/-- Go `DB.GetIDName()` (unnamed part_008): the default id column name is
`"id"`; a non-empty `IDColumn` is used verbatim. -/
def DB.GetIDName (jdb : DB) : List Char :=
  if jdb.IDColumn = [] then "id".data else jdb.IDColumn

/-- Go `columnEq(column)` (builders.go). -/
def columnEq (column : List Char) : List Char :=
  column ++ " = ?".data

/-- Go `deleteParams` (builders.go). -/
structure deleteParams where
  From : List Char
  Where : List (List Char × Expr)

/-- Go `buildDeleteSQL(options)` (builders.go). -/
def buildDeleteSQL (options : deleteParams) : List Char :=
  let sql := "DELETE FROM ".data ++ options.From
  if options.Where.length > 0 then
    sql ++ " WHERE ".data ++ (buildWhereClause options.Where).1
  else sql

/-- The SQL text Go `DB.Get(table, id, v)` (unnamed part_008) hands to the
executor: a SELECT whose only WHERE clause is `<id column> = ?`; the record
adapter's extracted column names are the `columns` parameter. -/
def DB.GetSQL (jdb : DB) (table : List Char) (columns : List (List Char)) : List Char :=
  buildSelectQuery
    { From := table,
      Where := [(AND_TYPE, Expr.simple (columnEq jdb.GetIDName))],
      OrderBy := [], Offset := false, Limit := false, Columns := columns }

/-- The SQL text Go `DB.Delete(table, id)` (unnamed part_008) hands to the
executor: a DELETE whose only WHERE clause is `<id column> = ?`. -/
def DB.DeleteSQL (jdb : DB) (table : List Char) : List Char :=
  buildDeleteSQL ⟨table, [(AND_TYPE, Expr.simple (columnEq jdb.GetIDName))]⟩

/-- A column name containing neither a marker nor a quote character. -/
def noMarkerNoQuote (s : List Char) : Bool :=
  s.all (fun c => !(c == '?') && !(c == '\''))

theorem rewriteFrom_append_clean (s : List Char) :
    ∀ (t : List Char) (n : Nat), noMarkerNoQuote s = true →
      rewriteFrom (s ++ t) n false = s ++ rewriteFrom t n false := by
  induction s with
  | nil => intro t n _; rfl
  | cons c rest ih =>
    intro t n h
    rw [noMarkerNoQuote, List.all_cons, Bool.and_eq_true] at h
    obtain ⟨hc0, hrest⟩ := h
    simp only [Bool.and_eq_true, Bool.not_eq_true', beq_eq_false_iff_ne] at hc0
    simp only [List.cons_append, rewriteFrom, if_neg hc0.1, if_neg hc0.2,
      List.append_eq]
    rw [ih t n hrest]

/-- **C10**: `GetIDName` returns the default column name `"id"` exactly when
`IDColumn` is the empty string and `IDColumn` verbatim otherwise; the
table-level `Get` and `Delete` always build their WHERE clause as the single
equality-with-marker clause `<id column> = ?` on exactly this column,
whatever the rest of the configuration, so for a column name free of markers
and quotes the emitted texts end in `WHERE <id column> = $1`. -/
theorem getIDName_id_clause_spec (jdb : DB) (table : List Char)
    (cols : List (List Char)) :
    (jdb.IDColumn = [] → jdb.GetIDName = "id".data) ∧
    (jdb.IDColumn ≠ [] → jdb.GetIDName = jdb.IDColumn) ∧
    jdb.GetSQL table cols =
      "SELECT ".data ++ joinSep (", ".data) cols ++ " FROM ".data ++ table
        ++ " WHERE ".data ++ (replacePlaceholder (columnEq jdb.GetIDName) 0).1 ∧
    jdb.DeleteSQL table =
      "DELETE FROM ".data ++ table ++ " WHERE ".data
        ++ (replacePlaceholder (columnEq jdb.GetIDName) 0).1 ∧
    (noMarkerNoQuote jdb.GetIDName = true →
      (replacePlaceholder (columnEq jdb.GetIDName) 0).1 =
        jdb.GetIDName ++ " = $1".data) := by
  refine ⟨fun h => by simp [DB.GetIDName, h], fun h => by simp [DB.GetIDName, h],
    ?_, ?_, ?_⟩
  · simp [DB.GetSQL, buildSelectQuery, buildWhereClause, joinWhereClauses,
      clauseSlots, joinSep, exprString]
  · simp [DB.DeleteSQL, buildDeleteSQL, buildWhereClause, joinWhereClauses,
      clauseSlots, joinSep, exprString]
  · intro h
    rw [replacePlaceholder_eq_rewrite]
    show rewriteFrom (columnEq jdb.GetIDName) (0 + 1) false =
      jdb.GetIDName ++ " = $1".data
    have htail : rewriteFrom (" = ?".data) (0 + 1) false = " = $1".data := by decide
    rw [columnEq, rewriteFrom_append_clean _ _ _ h, htail]

/-- Witness for C10: a configured id column `"uid"` is used verbatim in both
the SELECT of `Get` and the DELETE of `Delete`, and an empty `IDColumn`
defaults to `"id"`. -/
theorem getIDName_id_clause_spec_witness :
    (DB.mk ("uid".data) []).GetIDName = "uid".data ∧
    (DB.mk ("uid".data) []).GetSQL ("users".data) ["uid".data, "name".data] =
      "SELECT uid, name FROM users WHERE uid = $1".data ∧
    (DB.mk ("uid".data) []).DeleteSQL ("users".data) =
      "DELETE FROM users WHERE uid = $1".data ∧
    (DB.mk [] []).GetIDName = "id".data := by
  have h := getIDName_id_clause_spec (DB.mk ("uid".data) []) ("users".data)
      ["uid".data, "name".data]
  have h2 := getIDName_id_clause_spec (DB.mk [] []) ("t".data) []
  refine ⟨h.2.1 (by decide), h.2.2.1.trans (by decide),
    h.2.2.2.1.trans (by decide), h2.1 rfl⟩

end sqlj
